import Mathlib

/-!
Verification development for the IndiSign backend (src/backend/main.py).

The development shallowly embeds the backend's pure logic:

* images are records carrying their dimensions and an abstract pixel
  payload; the OpenCV / numpy primitives used by the code (zeros,
  addWeighted against a black frame, putText, resize) are modelled as
  payload transformations that preserve the structure the code relies on
  (dimensions, and the fact that drawing alters the drawn-on buffer);
* the in-memory sign-image dictionary is modelled as an association list
  of characters to indices into an explicit heap of images, so that the
  in-place mutation discipline of the Python code (copy, then draw on the
  copy) is visible in the model;
* the video writer is modelled by the list of frames it receives, and the
  codec fallback loop by an explicit recursion over the codec list with
  an availability oracle standing for the host's codec support;
* the speech-to-text routine is modelled by the sequence of its fallible
  external steps (decode/re-encode, open-and-record, recognition), with
  the existence of the temporary WAV file tracked explicitly;
* Python string operations (lower, isalnum, isspace, strip) are modelled
  on their ASCII fragment, which covers the alphabet the backend loads.
-/

/-- An in-memory image: height, width, and an abstract pixel payload.
The payload stands for the numpy pixel buffer; per-pixel content of the
external library's operations is outside the embedding, but every
operation below transforms the payload so that drawing and blending are
observable. -/
structure Img where
  h : Nat
  w : Nat
  data : List Nat
deriving DecidableEq, Repr

/-- The heap of image buffers.  Python's numpy arrays are mutable objects;
the heap makes aliasing and in-place updates explicit. -/
abbrev Heap := List Img

/-- The sign_images dictionary: an association list from a character to the
heap index of its image, in insertion order (Python dicts preserve it). -/
abbrev SignTable := List (Char × Nat)

/-- Modelling of np.zeros((h, w, 3), dtype=np.uint8): an all-black frame of
the given dimensions, with a canonical zero payload. -/
def blackImg (h w : Nat) : Img :=
  ⟨h, w, [0]⟩

/-- Modelling of cv2.addWeighted(black, 1 - alpha, frame, alpha, 0) where
black = np.zeros((h, w, 3)): pointwise (1 - alpha) * 0 + alpha * q, that is,
alpha * q.  The alpha ratio is num / den; floor division stands for the
library's rounding.  The output has the dimensions of the black frame,
which the code builds from the first loaded image's dimensions. -/
def fadeWithBlack (h w : Nat) (num den : Nat) (frame : Img) : Img :=
  ⟨h, w, frame.data.map (fun q => q * num / den)⟩

/-- Modelling of cv2.putText(frame, label, ..., thickness): draws the label
onto the frame in place.  The drawing is modelled as a payload
transformation depending on the label and the thickness; dimensions are
preserved. -/
def putTextImg (label : String) (thick : Nat) (img : Img) : Img :=
  ⟨img.h, img.w, img.data.map (fun p => p + label.length + thick)⟩

/-- Modelling of cv2.resize(img, (w, h)): the output has width w and height
h; pixel resampling is the external library's business, the payload is
carried through. -/
def resizeImg (img : Img) (w h : Nat) : Img :=
  ⟨h, w, img.data⟩

/-- Label drawn on a character's frame in create_sign_video: the uppercased
character between two apostrophes (main.py line 123). -/
def labelOf (c : Char) : String :=
  String.mk [Char.ofNat 39, c.toUpper, Char.ofNat 39]

/-- ASCII fragment of Python's str.isalnum on a single character. -/
def pyIsAlnum (c : Char) : Bool :=
  c.isAlpha || c.isDigit

/-- ASCII fragment of Python's str.isspace on a single character: space,
tab, linefeed, vertical tab, formfeed, carriage return, and the four
ASCII separator control characters 0x1c-0x1f. -/
def pyIsSpace (c : Char) : Bool :=
  c == ' ' || c == '\t' || c == '\n' || c == '\x0b' || c == '\x0c' ||
    c == '\x0d' || c == '\x1c' || c == '\x1d' || c == '\x1e' || c == '\x1f'

/-- Filter kept by the normalizer (main.py line 80): alphanumeric or
whitespace characters survive. -/
def keepChar (c : Char) : Bool :=
  pyIsAlnum c || pyIsSpace c

/-- Modelling of text.lower() followed by the character filter of main.py
line 80, as a character list. -/
def clean_chars (text : String) : List Char :=
  (text.toList.map Char.toLower).filter keepChar

/-- Normalized text as a string (the value bound to clean_text in
create_sign_video, main.py line 80). -/
def clean_text_of (text : String) : String :=
  (clean_chars text).asString

/-- Modelling of Python's str.strip() on a character list: drop whitespace
from both ends. -/
def stripChars (l : List Char) : List Char :=
  ((l.dropWhile pyIsSpace).reverse.dropWhile pyIsSpace).reverse

/-- Modelling of Python's str.strip() on a string. -/
def pyStrip (s : String) : String :=
  (stripChars s.toList).asString

/-- Modelling of Python's str.lower() on a string (ASCII fragment). -/
def pyLower (s : String) : String :=
  (s.toList.map Char.toLower).asString

/-- Text normalizer component (main.py lines 80-82): lowercase the input,
drop every character that is neither alphanumeric nor whitespace, and fail
when the result is empty after trimming. -/
def normalize_text (text : String) : Except String String :=
  if stripChars (clean_chars text) = [] then
    Except.error "No valid characters in text"
  else
    Except.ok (clean_text_of text)

/-- Alphabet iterated by load_sign_images (main.py line 41), in order. -/
def alphabet_chars : List Char :=
  "abcdefghijklmnopqrstuvwxyz0123456789".toList

/-- Loop body of load_sign_images (main.py lines 42-47) for one character:
when the character's file exists and reads, the image is resized to width
480, height 640 and stored on a fresh heap cell recorded in the table. -/
def loadStep (readImg : Char → Option Img) (st : SignTable × Heap) (c : Char) :
    SignTable × Heap :=
  match readImg c with
  | some img => (st.1 ++ [(c, st.2.length)], st.2 ++ [resizeImg img 480 640])
  | none => st

/-- Modelling of load_sign_images (main.py lines 37-48).  The readImg
oracle stands for os.path.exists plus cv2.imread: none when the file for a
character is missing or unreadable.  Every loaded image is resized to
width 480, height 640 and stored; the table records characters in
iteration order together with the heap index of their image. -/
def load_sign_images (readImg : Char → Option Img) : SignTable × Heap :=
  alphabet_chars.foldl (loadStep readImg) ([], [])

/-- Dictionary lookup in the sign table. -/
def lookupSign (signs : SignTable) (c : Char) : Option Nat :=
  (signs.find? (fun p => p.1 == c)).map Prod.snd

/-- Membership test, modelling the Python expression (c in sign_images). -/
def signHas (signs : SignTable) (c : Char) : Bool :=
  (lookupSign signs c).isSome

/-- Modelling of next(iter(sign_images.values())).shape[:2] (main.py lines
88-89): the dimensions of the first loaded image.  The code only reaches
this point with a non-empty table; the (0, 0) default is never used there. -/
def first_img_dims (heap : Heap) (signs : SignTable) : Nat × Nat :=
  match signs with
  | [] => (0, 0)
  | p :: _ => ((heap.getD p.2 (blackImg 0 0)).h, (heap.getD p.2 (blackImg 0 0)).w)

/-- Codec preference list of create_sign_video (main.py lines 95-100). -/
def codecs_to_try : List String :=
  ["avc1", "H264", "X264", "mp4v"]

/-- Codec fallback loop (main.py lines 102-108): returns the first codec
whose writer opens (per the opens oracle), together with the list of codecs
whose failed writers were released. -/
def selectCodec (opens : String → Bool) : List String → Option String × List String
  | [] => (none, [])
  | c :: rest =>
    if opens c then (some c, [])
    else
      let r := selectCodec opens rest
      (r.1, c :: r.2)

/-- Frame-rate constant of create_sign_video (main.py line 84). -/
def fps : Nat := 15

/-- Frames per supported character (main.py line 85). -/
def char_frames : Nat := 6

/-- Blank frames per space character (main.py line 86). -/
def space_frames : Nat := 3

/-- Frames per fade ramp (main.py line 114). -/
def fade_frames : Nat := 2

/-- Character frame after the two putText passes of main.py lines 127-128:
the shadow pass with thickness 4, then the white pass with thickness 3,
both drawn on the same buffer. -/
def labeledImg (c : Char) (img : Img) : Img :=
  putTextImg (labelOf c) 3 (putTextImg (labelOf c) 4 img)

/-- Frame sequence emitted for one supported character (main.py lines
130-151): a fade-in ramp, a hold segment, and either a fade-out ramp or,
for the last character of the normalized text, extra hold frames. -/
def charSegment (h w : Nat) (frame : Img) (isLast : Bool) : List Img :=
  ((List.range fade_frames).map (fun fade_idx => fadeWithBlack h w fade_idx fade_frames frame))
    ++ List.replicate (char_frames - 2 * fade_frames) frame
    ++ (if isLast then
          List.replicate fade_frames frame
        else
          (List.range fade_frames).map
            (fun fade_idx => fadeWithBlack h w (fade_frames - fade_idx) fade_frames frame))

/-- Per-character loop of create_sign_video (main.py lines 116-151),
threading the image heap.  For a space, space_frames black frames are
written; for a character of the table, its image is copied onto a fresh
heap cell, the label is drawn twice on that copy in place (shadow pass
with thickness 4, then white pass with thickness 3), and the segment of
charSegment is written; any other character writes nothing.  The index i
and the length n of the normalized text decide whether the character is
the last one (the Python test i < len(clean_text) - 1). -/
def renderList (signs : SignTable) (h w n : Nat) : Nat → Heap → List Char → Heap × List Img
  | _, heap, [] => (heap, [])
  | i, heap, c :: rest =>
    if c = ' ' then
      let r := renderList signs h w n (i + 1) heap rest
      (r.1, List.replicate space_frames (blackImg h w) ++ r.2)
    else
      match lookupSign signs c with
      | some idx =>
        let img := heap.getD idx (blackImg 0 0)
        let f1 := putTextImg (labelOf c) 4 img
        let f2 := putTextImg (labelOf c) 3 f1
        let heap1 := (((heap ++ [img]).set heap.length f1).set heap.length f2)
        let r := renderList signs h w n (i + 1) heap1 rest
        (r.1, charSegment h w f2 (decide (n ≤ i + 1)) ++ r.2)
      | none =>
        renderList signs h w n (i + 1) heap rest

/-- Successful outcome of create_sign_video: the frames handed to the video
writer in order, the final image heap, and the codec that was used. -/
structure VideoOut where
  frames : List Img
  heap : Heap
  codec : String
deriving DecidableEq, Repr

/-- Modelling of create_sign_video (main.py lines 75-156).  The opens
oracle stands for the host's codec support; the generated file name
(timestamp plus random suffix) is outside the embedding.  Failures are the
three ValueError sites of the code, in their order: empty table, no valid
character after normalization, no codec able to open a writer. -/
def create_sign_video (opens : String → Bool) (heap : Heap) (signs : SignTable)
    (text : String) : Except String VideoOut :=
  if signs.isEmpty then Except.error "Sign images not loaded"
  else
    let clean := clean_chars text
    if stripChars clean = [] then Except.error "No valid characters in text"
    else
      let hw := first_img_dims heap signs
      match (selectCodec opens codecs_to_try).1 with
      | none => Except.error "Could not create video file with any codec"
      | some cd =>
        let r := renderList signs hw.1 hw.2 clean.length 0 heap clean
        Except.ok ⟨r.2, r.1, cd⟩

/-- Frame contribution of one normalized character, as written by the loop
of create_sign_video: space_frames for a space, char_frames for a table
character, zero otherwise. -/
def frame_contribution (signs : SignTable) (c : Char) : Nat :=
  if c = ' ' then space_frames
  else
    match lookupSign signs c with
    | some _ => char_frames
    | none => 0

/-- Outcome of the external recognition call in speech_to_text: success,
sr.UnknownValueError, or sr.RequestError with a message. -/
inductive RecogOutcome where
  | success (text : String)
  | unknownValue
  | requestError (msg : String)
deriving DecidableEq, Repr

/-- Environment of one speech_to_text call: whether pydub decodes and
re-encodes the upload (creating the WAV temp file), whether opening and
recording the WAV (the sr.AudioFile block, main.py lines 60-62) succeeds,
and the outcome of the recognition call. -/
structure SttEnv where
  decodeOk : Bool
  recordOk : Bool
  recog : RecogOutcome
deriving DecidableEq, Repr

/-- Result of speech_to_text together with whether the re-encoded WAV temp
file still exists when the call returns or propagates. -/
structure SttResult where
  result : Except String String
  wavExists : Bool
deriving Repr

/-- Modelling of speech_to_text (main.py lines 50-73).  The WAV temp file
is created by the export on line 58.  The sr.AudioFile block of lines
60-62 runs outside the try/finally of lines 64-73, so an exception there
propagates without the cleanup; the finally clause deletes the WAV for
every outcome of the recognition call.  Error strings of the external
decode and record steps are the third-party exceptions' own messages and
are not fixed by the repository. -/
def speech_to_text (env : SttEnv) : SttResult :=
  if !env.decodeOk then ⟨Except.error "audio decode failed", false⟩
  else if !env.recordOk then ⟨Except.error "audio record failed", true⟩
  else
    match env.recog with
    | RecogOutcome.success t => ⟨Except.ok (pyStrip (pyLower t)), false⟩
    | RecogOutcome.unknownValue => ⟨Except.error "Could not understand audio", false⟩
    | RecogOutcome.requestError e =>
        ⟨Except.error ("Google Speech Recognition error: " ++ e), false⟩

/-- HTTP response of a handler: a success payload or an error status with a
detail string. -/
inductive HttpResp where
  | ok (video_file : String) (text : String)
  | err (status : Nat) (detail : String)
deriving DecidableEq, Repr

/-- Modelling of the POST /text-to-sign handler (main.py lines 379-388).
The textField argument is the "text" member of the request body (none when
missing); fname stands for the file name generated inside
create_sign_video.  The handler strips the text, answers 400 when the
result is empty, otherwise calls create_sign_video and answers 500 with
the exception's message on failure, or the video file and the stripped
text on success. -/
def text_to_sign (opens : String → Bool) (heap : Heap) (signs : SignTable)
    (fname : String) (textField : Option String) : HttpResp :=
  let text := pyStrip (textField.getD "")
  if text = "" then HttpResp.err 400 "Text is required"
  else
    match create_sign_video opens heap signs text with
    | Except.ok _ => HttpResp.ok fname text
    | Except.error e => HttpResp.err 500 e

/-- Concrete 1x1 test image with payload 100, used by concrete instances. -/
def imgA : Img := ⟨1, 1, [100]⟩

/-- Concrete 1x1 test image with payload 50, used by concrete instances. -/
def imgB : Img := ⟨1, 1, [50]⟩

/-- Two-character sign table over imgA and imgB. -/
def signsAB : SignTable := [('a', 0), ('b', 1)]

/-- Image-reading oracle that only finds a file for the character a. -/
def readImgW : Char → Option Img :=
  fun c => if c = 'a' then some ⟨3, 2, [100]⟩ else none

/-- Value of create_sign_video on the single-supported-character text a over
the one-image table, with every codec available. -/
def vidA : VideoOut :=
  ⟨[⟨1, 1, [0]⟩, ⟨1, 1, [56]⟩, ⟨1, 1, [113]⟩, ⟨1, 1, [113]⟩, ⟨1, 1, [113]⟩, ⟨1, 1, [113]⟩],
   [imgA, ⟨1, 1, [113]⟩], "avc1"⟩

/-- Value of create_sign_video on the text a over the table loaded through
readImgW, with every codec available. -/
def vidLoadedA : VideoOut :=
  ⟨[⟨640, 480, [0]⟩, ⟨640, 480, [56]⟩, ⟨640, 480, [113]⟩, ⟨640, 480, [113]⟩,
    ⟨640, 480, [113]⟩, ⟨640, 480, [113]⟩],
   [⟨640, 480, [100]⟩, ⟨640, 480, [113]⟩], "avc1"⟩

/-- Trimming to the empty string happens exactly when the character list is
empty: List.asString is injective because String.toList inverts it. -/
lemma asString_eq_empty {l : List Char} : l.asString = "" ↔ l = [] := by
  constructor
  · intro h
    have h2 := congrArg String.toList h
    simpa using h2
  · intro h
    subst h
    rfl

/-- Unfolding lemma: stripping via pyStrip of a string built from a
character list is stripChars of that list. -/
lemma pyStrip_asString (l : List Char) : pyStrip l.asString = (stripChars l).asString := rfl

/-- A member that fails the predicate survives dropWhile. -/
lemma mem_dropWhile_of_mem {α : Type} {p : α → Bool} :
    ∀ {l : List α} {b : α}, b ∈ l → p b = false → b ∈ l.dropWhile p := by
  intro l
  induction l with
  | nil => intro b hb _; cases hb
  | cons a t ih =>
    intro b hb hpb
    by_cases hpa : p a = true
    · rw [List.dropWhile_cons_of_pos hpa]
      rcases List.mem_cons.mp hb with rfl | hb
      · rw [hpa] at hpb; cases hpb
      · exact ih hb hpb
    · rw [List.dropWhile_cons_of_neg hpa]
      exact hb

/-- A list containing a non-whitespace character does not strip to the
empty list. -/
lemma stripChars_ne_nil {l : List Char} {b : Char} (hb : b ∈ l)
    (hsp : pyIsSpace b = false) : stripChars l ≠ [] := by
  have h1 : b ∈ l.dropWhile pyIsSpace := mem_dropWhile_of_mem hb hsp
  have h2 : b ∈ (l.dropWhile pyIsSpace).reverse := List.mem_reverse.mpr h1
  have h3 : b ∈ (l.dropWhile pyIsSpace).reverse.dropWhile pyIsSpace :=
    mem_dropWhile_of_mem h2 hsp
  exact List.ne_nil_of_mem (List.mem_reverse.mpr h3)

/-- Every character of the loaded alphabet is already lowercase, is kept by
the normalizer's filter, and is not whitespace. -/
lemma alphabet_char_facts : ∀ a ∈ alphabet_chars,
    Char.toLower a = a ∧ keepChar a = true ∧ pyIsSpace a = false := by decide

/-- Characters of the input that are already lowercase and kept by the
filter appear in the normalized character list. -/
lemma mem_clean_chars {c : Char} {text : String} (hct : c ∈ text.toList)
    (hlow : Char.toLower c = c) (hkeep : keepChar c = true) :
    c ∈ clean_chars text := by
  unfold clean_chars
  exact List.mem_filter.mpr ⟨List.mem_map.mpr ⟨c, hct, hlow⟩, hkeep⟩

/-- Structure of a successful dictionary lookup in the sign table. -/
lemma lookupSign_some {signs : SignTable} {c : Char} {idx : Nat}
    (h : lookupSign signs c = some idx) : ∃ p ∈ signs, p.1 = c ∧ p.2 = idx := by
  unfold lookupSign at h
  cases hf : signs.find? (fun p => p.1 == c) with
  | none => rw [hf] at h; cases h
  | some p =>
    rw [hf] at h
    refine ⟨p, List.mem_of_find?_eq_some hf, ?_, ?_⟩
    · have := List.find?_some hf
      simpa using this
    · simpa using h

/-- Setting the cell just past a list overwrites the appended element. -/
lemma set_append_len {α : Type} (l : List α) (a b : α) :
    (l ++ [a]).set l.length b = l ++ [b] := by
  rw [List.set_append]
  simp

/-- Unfolding of the render loop at the empty list. -/
lemma renderList_nil (signs : SignTable) (h w n i : Nat) (heap : Heap) :
    renderList signs h w n i heap [] = (heap, []) := rfl

/-- Unfolding of the render loop at a space character (main.py lines
117-120): space_frames black frames, unchanged heap. -/
lemma renderList_cons_space (signs : SignTable) (h w n i : Nat) (heap : Heap)
    (rest : List Char) :
    renderList signs h w n i heap (' ' :: rest)
      = ((renderList signs h w n (i + 1) heap rest).1,
         List.replicate space_frames (blackImg h w)
           ++ (renderList signs h w n (i + 1) heap rest).2) := by
  simp [renderList]

/-- Unfolding of the render loop at an unsupported character (main.py line
121, the elif test failing): nothing is written. -/
lemma renderList_cons_none {signs : SignTable} (h w n i : Nat) (heap : Heap)
    {c : Char} (rest : List Char) (hc : c ≠ ' ') (hl : lookupSign signs c = none) :
    renderList signs h w n i heap (c :: rest)
      = renderList signs h w n (i + 1) heap rest := by
  simp [renderList, hc, hl]

/-- Unfolding of the render loop at a supported character (main.py lines
121-151): the image is copied to a fresh heap cell, the label is drawn on
the copy, and the character's segment is written. -/
lemma renderList_cons_found {signs : SignTable} (h w n i : Nat) (heap : Heap)
    {c : Char} (rest : List Char) {idx : Nat}
    (hc : c ≠ ' ') (hl : lookupSign signs c = some idx) :
    renderList signs h w n i heap (c :: rest)
      = ((renderList signs h w n (i + 1)
            (heap ++ [labeledImg c (heap.getD idx (blackImg 0 0))]) rest).1,
         charSegment h w (labeledImg c (heap.getD idx (blackImg 0 0))) (decide (n ≤ i + 1))
           ++ (renderList signs h w n (i + 1)
                (heap ++ [labeledImg c (heap.getD idx (blackImg 0 0))]) rest).2) := by
  simp [renderList, hc, hl, set_append_len, labeledImg]

/-- Segment length for one supported character is char_frames, for the
last character of the text as well as for the others. -/
lemma charSegment_length (h w : Nat) (f : Img) (b : Bool) :
    (charSegment h w f b).length = char_frames := by
  cases b <;> simp [charSegment, char_frames, fade_frames]

/-- Every frame of a character segment is either the labeled frame itself
or a fade frame carrying the dimensions passed to the segment. -/
lemma charSegment_mem {h w : Nat} {frame : Img} {b : Bool} {f : Img}
    (hf : f ∈ charSegment h w frame b) : f = frame ∨ (f.h = h ∧ f.w = w) := by
  unfold charSegment at hf
  rcases List.mem_append.mp hf with hf1 | hf2
  · rcases List.mem_append.mp hf1 with hfade | hhold
    · obtain ⟨idx, _, rfl⟩ := List.mem_map.mp hfade
      exact Or.inr ⟨rfl, rfl⟩
    · exact Or.inl (List.eq_of_mem_replicate hhold)
  · cases b with
    | true =>
      rw [if_pos rfl] at hf2
      exact Or.inl (List.eq_of_mem_replicate hf2)
    | false =>
      simp only [Bool.false_eq_true, if_false] at hf2
      obtain ⟨idx, _, rfl⟩ := List.mem_map.mp hf2
      exact Or.inr ⟨rfl, rfl⟩

/-- The number of frames written by the render loop is the sum of the
per-character contributions, for every starting index and heap. -/
lemma renderList_length (signs : SignTable) (h w n : Nat) :
    ∀ (l : List Char) (i : Nat) (heap : Heap),
      ((renderList signs h w n i heap l).2).length
        = (l.map (frame_contribution signs)).sum := by
  intro l
  induction l with
  | nil => intro i heap; simp [renderList_nil]
  | cons c rest ih =>
    intro i heap
    by_cases hc : c = ' '
    · subst hc
      rw [renderList_cons_space]
      simp [frame_contribution, ih]
    · cases hl : lookupSign signs c with
      | none =>
        rw [renderList_cons_none _ _ _ _ _ _ hc hl]
        simp [frame_contribution, hc, hl, ih]
      | some idx =>
        rw [renderList_cons_found _ _ _ _ _ _ hc hl]
        simp [frame_contribution, hc, hl, ih, charSegment_length]

/-- The render loop only appends to the heap: every cell of the initial
heap, in particular every cell the sign table points at, is untouched. -/
lemma renderList_heap_extend (signs : SignTable) (h w n : Nat) :
    ∀ (l : List Char) (i : Nat) (heap : Heap),
      ∃ ext, (renderList signs h w n i heap l).1 = heap ++ ext := by
  intro l
  induction l with
  | nil => intro i heap; exact ⟨[], by simp [renderList_nil]⟩
  | cons c rest ih =>
    intro i heap
    by_cases hc : c = ' '
    · subst hc
      obtain ⟨ext, hext⟩ := ih (i + 1) heap
      rw [renderList_cons_space]
      exact ⟨ext, hext⟩
    · cases hl : lookupSign signs c with
      | none =>
        obtain ⟨ext, hext⟩ := ih (i + 1) heap
        rw [renderList_cons_none _ _ _ _ _ _ hc hl]
        exact ⟨ext, hext⟩
      | some idx =>
        obtain ⟨ext, hext⟩ :=
          ih (i + 1) (heap ++ [labeledImg c (heap.getD idx (blackImg 0 0))])
        rw [renderList_cons_found _ _ _ _ _ _ hc hl]
        exact ⟨[labeledImg c (heap.getD idx (blackImg 0 0))] ++ ext, by
          rw [hext, List.append_assoc]⟩

/-- Every frame written by the render loop has the dimensions passed to it,
provided every image the sign table points at has those dimensions. -/
lemma renderList_dims (signs : SignTable) (hh ww n : Nat) :
    ∀ (l : List Char) (i : Nat) (heap : Heap),
      (∀ p ∈ signs, ∃ img, heap[p.2]? = some img ∧ img.h = hh ∧ img.w = ww) →
      ∀ f ∈ (renderList signs hh ww n i heap l).2, f.h = hh ∧ f.w = ww := by
  intro l
  induction l with
  | nil => intro i heap _ f hf; rw [renderList_nil] at hf; cases hf
  | cons c rest ih =>
    intro i heap hinv f hf
    by_cases hc : c = ' '
    · subst hc
      rw [renderList_cons_space] at hf
      rcases List.mem_append.mp hf with hf | hf
      · rw [List.eq_of_mem_replicate hf]
        exact ⟨rfl, rfl⟩
      · exact ih (i + 1) heap hinv f hf
    · cases hl : lookupSign signs c with
      | none =>
        rw [renderList_cons_none _ _ _ _ _ _ hc hl] at hf
        exact ih (i + 1) heap hinv f hf
      | some idx =>
        rw [renderList_cons_found _ _ _ _ _ _ hc hl] at hf
        obtain ⟨p, hp, hpc, hpidx⟩ := lookupSign_some hl
        obtain ⟨img, himg, himh, himw⟩ := hinv p hp
        have hgetD : heap.getD idx (blackImg 0 0) = img := by
          rw [List.getD_eq_getElem?_getD, ← hpidx, himg]
          rfl
        have hlbl : (labeledImg c (heap.getD idx (blackImg 0 0))).h = hh
            ∧ (labeledImg c (heap.getD idx (blackImg 0 0))).w = ww := by
          rw [hgetD]
          exact ⟨himh, himw⟩
        rcases List.mem_append.mp hf with hf | hf
        · rcases charSegment_mem hf with rfl | hdim
          · exact hlbl
          · exact hdim
        · refine ih (i + 1) _ ?_ f hf
          intro q hq
          obtain ⟨img', himg', hh', hw'⟩ := hinv q hq
          have hb : q.2 < heap.length := (List.getElem?_eq_some.mp himg').1
          exact ⟨img', by rw [List.getElem?_append_left hb]; exact himg', hh', hw'⟩

/-- The codec loop picks the first codec the oracle opens, and the released
writers are exactly those of the failing codecs tried before it. -/
lemma selectCodec_eq (opens : String → Bool) :
    ∀ l : List String,
      selectCodec opens l = (l.find? opens, l.takeWhile (fun cd => !(opens cd))) := by
  intro l
  induction l with
  | nil => rfl
  | cons c rest ih =>
    by_cases hc : opens c = true
    · simp [selectCodec, hc, List.find?_cons, List.takeWhile_cons]
    · simp only [Bool.not_eq_true] at hc
      simp [selectCodec, hc, List.find?_cons, List.takeWhile_cons, ih]

/-- Invariant carried by the image loader: every table entry is a character
of the iterated alphabet whose heap cell holds an image resized to height
640, width 480. -/
def loadGood (st : SignTable × Heap) : Prop :=
  ∀ p ∈ st.1, p.1 ∈ alphabet_chars
    ∧ ∃ img, st.2[p.2]? = some img ∧ img.h = 640 ∧ img.w = 480

/-- One loader step preserves the loader invariant. -/
lemma loadStep_good {readImg : Char → Option Img} {st : SignTable × Heap} {c : Char}
    (hc : c ∈ alphabet_chars) (hst : loadGood st) : loadGood (loadStep readImg st c) := by
  unfold loadStep
  cases hr : readImg c with
  | none => exact hst
  | some img =>
    intro p hp
    rcases List.mem_append.mp hp with hp | hp
    · obtain ⟨ha, img', h', hh, hw⟩ := hst p hp
      have hb : p.2 < st.2.length := (List.getElem?_eq_some.mp h').1
      exact ⟨ha, img', by rw [List.getElem?_append_left hb]; exact h', hh, hw⟩
    · have hp2 : p = (c, st.2.length) := by simpa using hp
      subst hp2
      exact ⟨hc, resizeImg img 480 640, List.getElem?_concat_length _ _, rfl, rfl⟩

/-- The loader invariant holds of the folded loader over any sub-alphabet. -/
lemma foldl_loadStep_good (readImg : Char → Option Img) :
    ∀ (l : List Char), (∀ c ∈ l, c ∈ alphabet_chars) →
      ∀ st, loadGood st → loadGood (l.foldl (loadStep readImg) st) := by
  intro l
  induction l with
  | nil => intro _ st hst; exact hst
  | cons c t ih =>
    intro hl st hst
    exact ih (fun x hx => hl x (List.mem_cons_of_mem _ hx)) _
      (loadStep_good (hl c (List.mem_cons_self _ _)) hst)

/-- The table produced by load_sign_images satisfies the loader invariant:
keys come from the alphabet and every key's image is 640 by 480. -/
lemma load_good (readImg : Char → Option Img) : loadGood (load_sign_images readImg) := by
  unfold load_sign_images
  refine foldl_loadStep_good readImg alphabet_chars (fun c hc => hc) ([], []) ?_
  intro p hp
  cases hp

/-- Unfolding of create_sign_video on the successful path: non-empty table,
non-empty normalized text, and a codec that opens. -/
lemma create_ok (opens : String → Bool) (heap : Heap) (signs : SignTable) (text : String)
    (h1 : signs.isEmpty = false) (h2 : stripChars (clean_chars text) ≠ [])
    {cd : String} (h3 : (selectCodec opens codecs_to_try).1 = some cd) :
    create_sign_video opens heap signs text
      = Except.ok
          ⟨(renderList signs (first_img_dims heap signs).1 (first_img_dims heap signs).2
              (clean_chars text).length 0 heap (clean_chars text)).2,
           (renderList signs (first_img_dims heap signs).1 (first_img_dims heap signs).2
              (clean_chars text).length 0 heap (clean_chars text)).1,
           cd⟩ := by
  simp [create_sign_video, h1, h2, h3]

/-- Failure characterization of create_sign_video: it raises exactly when
the table is empty, or the normalized text strips to nothing, or no codec
opens a writer. -/
lemma create_error_iff (opens : String → Bool) (heap : Heap) (signs : SignTable)
    (text : String) :
    (∃ e, create_sign_video opens heap signs text = Except.error e)
      ↔ (signs.isEmpty = true ∨ stripChars (clean_chars text) = []
          ∨ (selectCodec opens codecs_to_try).1 = none) := by
  unfold create_sign_video
  by_cases h1 : signs.isEmpty
  · simp [h1]
  · by_cases h2 : stripChars (clean_chars text) = []
    · simp [h1, h2]
    · cases h3 : (selectCodec opens codecs_to_try).1 with
      | none => simp [h1, h2, h3]
      | some cd => simp [h1, h2, h3]

/-- C1: for every input text containing at least one character that is a
key of the loaded sign-image table (and a codec the host can open),
create_sign_video succeeds and the number of frames written equals the sum
over the normalized text's characters of: space_frames for a space,
char_frames for a table character, and zero for every other character. -/
theorem c1_frame_count (readImg : Char → Option Img) (opens : String → Bool) (text : String)
    (hsome : ∃ c ∈ text.toList, signHas (load_sign_images readImg).1 c = true)
    (hcodec : ∃ cd ∈ codecs_to_try, opens cd = true) :
    ∃ r, create_sign_video opens (load_sign_images readImg).2 (load_sign_images readImg).1 text
           = Except.ok r
      ∧ r.frames.length
          = ((clean_chars text).map (frame_contribution (load_sign_images readImg).1)).sum := by
  obtain ⟨c, hct, hhas⟩ := hsome
  unfold signHas at hhas
  cases hl : lookupSign (load_sign_images readImg).1 c with
  | none => rw [hl] at hhas; simp at hhas
  | some idx =>
    obtain ⟨p, hp, hpc, _⟩ := lookupSign_some hl
    have hc_alpha : c ∈ alphabet_chars := by
      rw [← hpc]
      exact (load_good readImg p hp).1
    obtain ⟨hlow, hkeep, hnsp⟩ := alphabet_char_facts c hc_alpha
    have h1 : (load_sign_images readImg).1.isEmpty = false := by
      cases hs : (load_sign_images readImg).1 with
      | nil => rw [hs] at hp; cases hp
      | cons q t => rfl
    have hcc : c ∈ clean_chars text := mem_clean_chars hct hlow hkeep
    have h2 : stripChars (clean_chars text) ≠ [] := stripChars_ne_nil hcc hnsp
    obtain ⟨cd0, hcdmem, hcdop⟩ := hcodec
    have hsel : ((selectCodec opens codecs_to_try).1).isSome = true := by
      rw [selectCodec_eq]
      exact List.find?_isSome.mpr ⟨cd0, hcdmem, hcdop⟩
    obtain ⟨cd, hcd⟩ := Option.isSome_iff_exists.mp hsel
    exact ⟨_, create_ok opens _ _ text h1 h2 hcd,
      renderList_length _ _ _ _ (clean_chars text) 0 _⟩

/-- Witness for c1_frame_count: the text a over the table loaded through
readImgW, with every codec available. -/
theorem c1_frame_count_witness :
    ∃ r, create_sign_video (fun _ => true) (load_sign_images readImgW).2
           (load_sign_images readImgW).1 "a" = Except.ok r
      ∧ r.frames.length
          = ((clean_chars "a").map (frame_contribution (load_sign_images readImgW).1)).sum :=
  c1_frame_count readImgW (fun _ => true) "a" (by decide) (by decide)

/-- C4: the normalizer outputs the lowercased input with every character
that is neither alphanumeric nor whitespace removed, errs exactly when
that output is empty after trimming, and on the sample sentence yields
exactly the sample output. -/
theorem c4_normalizer :
    (∀ s, (∃ e, normalize_text s = Except.error e) ↔ pyStrip (clean_text_of s) = "")
  ∧ (∀ s, normalize_text s = Except.ok (clean_text_of s) ↔ pyStrip (clean_text_of s) ≠ "")
  ∧ normalize_text "Hello, World! 123" = Except.ok "hello world 123" := by
  have key : ∀ s : String,
      pyStrip (clean_text_of s) = "" ↔ stripChars (clean_chars s) = [] := by
    intro s
    rw [show pyStrip (clean_text_of s) = (stripChars (clean_chars s)).asString from rfl]
    exact asString_eq_empty
  refine ⟨?_, ?_, rfl⟩
  · intro s
    unfold normalize_text
    by_cases h : stripChars (clean_chars s) = []
    · simp [h, (key s).mpr h]
    · simp only [h, if_false]
      constructor
      · rintro ⟨e, he⟩
        cases he
      · intro hc
        exact absurd ((key s).mp hc) h
  · intro s
    unfold normalize_text
    by_cases h : stripChars (clean_chars s) = []
    · simp [h, (key s).mpr h]
    · simp only [h, if_false, true_iff]
      intro hc
      exact h ((key s).mp hc)

/-- Witness for c4_normalizer: the ok case of the normalizer evaluated at a
concrete string. -/
theorem c4_normalizer_witness :
    normalize_text "abc" = Except.ok (clean_text_of "abc") :=
  (c4_normalizer.2.1 "abc").mpr (by decide)

/-- Inversion of a successful create_sign_video run: the table was
non-empty, the normalized text survived trimming, some codec opened, and
the result packages the render loop's frames and final heap. -/
lemma create_ok_inv {opens : String → Bool} {heap : Heap} {signs : SignTable}
    {text : String} {r : VideoOut}
    (hok : create_sign_video opens heap signs text = Except.ok r) :
    signs.isEmpty = false ∧ stripChars (clean_chars text) ≠ []
    ∧ ∃ cd, (selectCodec opens codecs_to_try).1 = some cd
        ∧ r = ⟨(renderList signs (first_img_dims heap signs).1 (first_img_dims heap signs).2
                  (clean_chars text).length 0 heap (clean_chars text)).2,
               (renderList signs (first_img_dims heap signs).1 (first_img_dims heap signs).2
                  (clean_chars text).length 0 heap (clean_chars text)).1,
               cd⟩ := by
  by_cases h1 : signs.isEmpty
  · simp [create_sign_video, h1] at hok
  · have h1f : signs.isEmpty = false := by simpa using h1
    by_cases h2 : stripChars (clean_chars text) = []
    · simp [create_sign_video, h1, h2] at hok
    · cases h3 : (selectCodec opens codecs_to_try).1 with
      | none => simp [create_sign_video, h1, h2, h3] at hok
      | some cd =>
        refine ⟨h1f, h2, cd, rfl, ?_⟩
        have hc := create_ok opens heap signs text h1f h2 h3
        rw [hc] at hok
        exact (Except.ok.inj hok).symm

/-- C5: on the two-character table over imgA and imgB and the input ab, the
composed frame sequence is deterministic: the segment of a carries a
fade-out, the segment of b (last character) replaces it with extra hold
frames, each segment has char_frames frames, twelve frames in total. -/
theorem c5_two_char_sequence :
    ∃ r, create_sign_video (fun _ => true) [imgA, imgB] signsAB "ab" = Except.ok r
      ∧ r.frames
          = charSegment 1 1 (labeledImg 'a' imgA) false
            ++ charSegment 1 1 (labeledImg 'b' imgB) true
      ∧ r.frames
          = [⟨1, 1, [0]⟩, ⟨1, 1, [56]⟩, ⟨1, 1, [113]⟩, ⟨1, 1, [113]⟩, ⟨1, 1, [113]⟩,
             ⟨1, 1, [56]⟩, ⟨1, 1, [0]⟩, ⟨1, 1, [31]⟩, ⟨1, 1, [63]⟩, ⟨1, 1, [63]⟩,
             ⟨1, 1, [63]⟩, ⟨1, 1, [63]⟩]
      ∧ (charSegment 1 1 (labeledImg 'a' imgA) false).length = char_frames
      ∧ (charSegment 1 1 (labeledImg 'b' imgB) true).length = char_frames
      ∧ r.frames.length = 2 * char_frames := by
  refine ⟨_, rfl, ?_, ?_, ?_, ?_, ?_⟩ <;> decide

/-- C2 counterexample: over the one-key table for a, the input xyz has no
supported character in its normalized form, yet create_sign_video succeeds
(with an empty frame sequence) instead of failing. -/
theorem c2_counterexample :
    (∀ c ∈ clean_chars "xyz", signHas [('a', 0)] c = false)
  ∧ stripChars (clean_chars "xyz") ≠ []
  ∧ ∃ r, create_sign_video (fun _ => true) [imgA] [('a', 0)] "xyz" = Except.ok r := by
  refine ⟨by decide, by decide, ⟨[], [imgA], "avc1"⟩, rfl⟩

/-- C2 amended: create_sign_video fails exactly when the sign table is
empty, or the normalized text is empty after trimming, or no codec opens a
writer; an input whose normalized text is non-empty succeeds even when none
of its characters is a table key. -/
theorem c2_amended (opens : String → Bool) (heap : Heap) (signs : SignTable)
    (text : String) :
    (∃ e, create_sign_video opens heap signs text = Except.error e)
      ↔ (signs.isEmpty = true ∨ stripChars (clean_chars text) = []
          ∨ ∀ cd ∈ codecs_to_try, opens cd = false) := by
  rw [create_error_iff, selectCodec_eq]
  simp [List.find?_eq_none]

/-- Witness for c2_amended: with no codec available the run fails. -/
theorem c2_amended_witness :
    (∃ e, create_sign_video (fun _ => false) [imgA] [('a', 0)] "a" = Except.error e)
      ↔ (([('a', 0)] : SignTable).isEmpty = true ∨ stripChars (clean_chars "a") = []
          ∨ ∀ cd ∈ codecs_to_try, (fun _ => false) cd = false) :=
  c2_amended (fun _ => false) [imgA] [('a', 0)] "a"

/-- C3 counterexample: when the WAV temp file has been created and the
record step (the sr.AudioFile block, outside the try/finally) raises,
speech_to_text propagates an error while the WAV file still exists. -/
theorem c3_counterexample :
    (speech_to_text ⟨true, false, RecogOutcome.success "hi"⟩).wavExists = true
  ∧ ∃ e, (speech_to_text ⟨true, false, RecogOutcome.success "hi"⟩).result
           = Except.error e :=
  ⟨rfl, "audio record failed", rfl⟩

/-- C3 amended: the WAV temp file is gone on return for every outcome of
the recognition call (and trivially when it was never created), but an
exception raised between its creation and the recognition try-block
propagates with the file still on disk. -/
theorem c3_amended (env : SttEnv) :
    (env.decodeOk = false → (speech_to_text env).wavExists = false)
  ∧ (env.recordOk = true → (speech_to_text env).wavExists = false)
  ∧ (env.decodeOk = true → env.recordOk = false →
       (speech_to_text env).wavExists = true
       ∧ ∃ e, (speech_to_text env).result = Except.error e) := by
  obtain ⟨d, rc, g⟩ := env
  cases d <;> cases rc <;> cases g <;> simp [speech_to_text]

/-- Witness for c3_amended: the recognition-failure outcome deletes the
WAV file. -/
theorem c3_amended_witness :
    (speech_to_text ⟨true, true, RecogOutcome.unknownValue⟩).wavExists = false :=
  (c3_amended ⟨true, true, RecogOutcome.unknownValue⟩).2.1 rfl

/-- C9: the sign-image table's cells are never mutated by a run of
create_sign_video: the final heap extends the initial one, and every cell
of the initial heap (in particular every cell the table points at) is
unchanged; the label is drawn on freshly appended copies only. -/
theorem c9_table_not_mutated (opens : String → Bool) (heap : Heap) (signs : SignTable)
    (text : String) (r : VideoOut)
    (hok : create_sign_video opens heap signs text = Except.ok r) :
    (∃ ext, r.heap = heap ++ ext)
  ∧ ∀ i, i < heap.length → r.heap[i]? = heap[i]? := by
  obtain ⟨h1, h2, cd, h3, hr⟩ := create_ok_inv hok
  obtain ⟨ext, hext⟩ := renderList_heap_extend signs (first_img_dims heap signs).1
    (first_img_dims heap signs).2 (clean_chars text).length (clean_chars text) 0 heap
  have hrh : r.heap = heap ++ ext := by
    rw [hr]
    exact hext
  refine ⟨⟨ext, hrh⟩, ?_⟩
  intro i hi
  rw [hrh, List.getElem?_append_left hi]

/-- Witness for c9_table_not_mutated at a concrete run. -/
theorem c9_table_not_mutated_witness :
    (∃ ext, vidA.heap = [imgA] ++ ext)
  ∧ ∀ i, i < ([imgA] : Heap).length → vidA.heap[i]? = ([imgA] : Heap)[i]? :=
  c9_table_not_mutated (fun _ => true) [imgA] [('a', 0)] "a" vidA rfl

/-- C6: every frame written by a successful run over the loaded table has
the dimensions of the first loaded image, and since load_sign_images
resizes every image to width 480, height 640, every written frame is 640
high and 480 wide. -/
theorem c6_frame_dims (readImg : Char → Option Img) (opens : String → Bool)
    (text : String) (r : VideoOut)
    (hok : create_sign_video opens (load_sign_images readImg).2 (load_sign_images readImg).1 text
             = Except.ok r) :
    (∀ f ∈ r.frames,
        (f.h, f.w) = first_img_dims (load_sign_images readImg).2 (load_sign_images readImg).1)
  ∧ first_img_dims (load_sign_images readImg).2 (load_sign_images readImg).1 = (640, 480) := by
  obtain ⟨h1, h2, cd, h3, hr⟩ := create_ok_inv hok
  have hdims : first_img_dims (load_sign_images readImg).2 (load_sign_images readImg).1
      = (640, 480) := by
    cases hs : (load_sign_images readImg).1 with
    | nil =>
      rw [hs] at h1
      simp at h1
    | cons p t =>
      have hp : p ∈ (load_sign_images readImg).1 := by
        rw [hs]
        exact List.mem_cons_self _ _
      obtain ⟨_, img, himg, hh, hw⟩ := load_good readImg p hp
      show (((load_sign_images readImg).2.getD p.2 (blackImg 0 0)).h,
            ((load_sign_images readImg).2.getD p.2 (blackImg 0 0)).w) = (640, 480)
      rw [List.getD_eq_getElem?_getD, himg]
      show (img.h, img.w) = (640, 480)
      rw [hh, hw]
  refine ⟨?_, hdims⟩
  intro f hf
  have hf1 : (first_img_dims (load_sign_images readImg).2 (load_sign_images readImg).1).1
      = 640 := by rw [hdims]
  have hf2 : (first_img_dims (load_sign_images readImg).2 (load_sign_images readImg).1).2
      = 480 := by rw [hdims]
  have hfr : f ∈ (renderList (load_sign_images readImg).1 640 480
      (clean_chars text).length 0 (load_sign_images readImg).2 (clean_chars text)).2 := by
    rw [← hf1, ← hf2]
    rw [hr] at hf
    exact hf
  have hinv : ∀ p ∈ (load_sign_images readImg).1,
      ∃ img, (load_sign_images readImg).2[p.2]? = some img ∧ img.h = 640 ∧ img.w = 480 :=
    fun p hp => (load_good readImg p hp).2
  obtain ⟨hfh, hfw⟩ := renderList_dims (load_sign_images readImg).1 640 480
    (clean_chars text).length (clean_chars text) 0 (load_sign_images readImg).2 hinv f hfr
  rw [hdims, hfh, hfw]

/-- Witness for c6_frame_dims at a concrete run over readImgW. -/
theorem c6_frame_dims_witness :
    (∀ f ∈ vidLoadedA.frames,
        (f.h, f.w) = first_img_dims (load_sign_images readImgW).2 (load_sign_images readImgW).1)
  ∧ first_img_dims (load_sign_images readImgW).2 (load_sign_images readImgW).1 = (640, 480) :=
  c6_frame_dims readImgW (fun _ => true) "a" vidLoadedA rfl

/-- C7: the writer tries the codecs in the fixed order avc1, H264, X264,
mp4v, picks the first that opens, releases exactly the writers of the
codecs that failed before it, and create_sign_video raises the no-codec
error exactly when none of the four opens. -/
theorem c7_codec_fallback (opens : String → Bool) (heap : Heap) (signs : SignTable)
    (text : String) (h1 : signs.isEmpty = false)
    (h2 : stripChars (clean_chars text) ≠ []) :
    codecs_to_try = ["avc1", "H264", "X264", "mp4v"]
  ∧ (selectCodec opens codecs_to_try).1 = codecs_to_try.find? opens
  ∧ (selectCodec opens codecs_to_try).2
      = codecs_to_try.takeWhile (fun cd => !(opens cd))
  ∧ ((create_sign_video opens heap signs text
        = Except.error "Could not create video file with any codec")
      ↔ ∀ cd ∈ codecs_to_try, opens cd = false) := by
  refine ⟨rfl, by rw [selectCodec_eq], by rw [selectCodec_eq], ?_⟩
  constructor
  · intro he
    cases h3 : (selectCodec opens codecs_to_try).1 with
    | some cd =>
      rw [create_ok opens heap signs text h1 h2 h3] at he
      cases he
    | none =>
      have h3f : codecs_to_try.find? opens = none := by
        rw [selectCodec_eq] at h3
        exact h3
      intro cd hcd
      have := List.find?_eq_none.mp h3f cd hcd
      simpa using this
  · intro hall
    have h3 : (selectCodec opens codecs_to_try).1 = none := by
      rw [selectCodec_eq]
      show codecs_to_try.find? opens = none
      exact List.find?_eq_none.mpr (fun x hx => by simp [hall x hx])
    simp [create_sign_video, h1, h2, h3]

/-- Witness for c7_codec_fallback: only the last codec opens, so the first
three writers are released and the fourth is used. -/
theorem c7_codec_fallback_witness :
    (selectCodec (fun cd => cd == "mp4v") codecs_to_try).1
      = codecs_to_try.find? (fun cd => cd == "mp4v") :=
  (c7_codec_fallback (fun cd => cd == "mp4v") [imgA] [('a', 0)] "a" rfl (by decide)).2.1

/-- C8: the /text-to-sign handler answers 400 exactly when the text field
is missing or strips to the empty string, answers 500 exactly when the
text is non-empty and create_sign_video raises, and on success returns the
generated file name together with the stripped input text. -/
theorem c8_text_to_sign (opens : String → Bool) (heap : Heap) (signs : SignTable)
    (fname : String) (textField : Option String) :
    ((∃ d, text_to_sign opens heap signs fname textField = HttpResp.err 400 d)
       ↔ (textField = none ∨ pyStrip (textField.getD "") = ""))
  ∧ ((∃ d, text_to_sign opens heap signs fname textField = HttpResp.err 500 d)
       ↔ (pyStrip (textField.getD "") ≠ ""
          ∧ ∃ e, create_sign_video opens heap signs (pyStrip (textField.getD ""))
                   = Except.error e))
  ∧ (∀ r, create_sign_video opens heap signs (pyStrip (textField.getD ""))
            = Except.ok r →
       text_to_sign opens heap signs fname textField
         = HttpResp.ok fname (pyStrip (textField.getD ""))) := by
  by_cases ht : pyStrip (textField.getD "") = ""
  · refine ⟨?_, ?_, ?_⟩
    · simp [text_to_sign, ht]
    · simp [text_to_sign, ht]
    · intro r hr
      exfalso
      have hstr : stripChars (clean_chars (pyStrip (textField.getD ""))) = [] := by
        rw [ht]
        rfl
      obtain ⟨e, he⟩ := (create_error_iff opens heap signs
        (pyStrip (textField.getD ""))).mpr (Or.inr (Or.inl hstr))
      rw [hr] at he
      cases he
  · have htf : textField ≠ none := by
      intro h
      rw [h] at ht
      exact ht rfl
    cases hc : create_sign_video opens heap signs (pyStrip (textField.getD "")) with
    | ok v =>
      refine ⟨?_, ?_, ?_⟩
      · simp [text_to_sign, ht, hc, htf]
      · simp [text_to_sign, ht, hc]
      · intro r hr
        simp [text_to_sign, ht, hc]
    | error e =>
      refine ⟨?_, ?_, ?_⟩
      · simp [text_to_sign, ht, hc, htf]
      · simp [text_to_sign, ht, hc]
      · intro r hr
        cases hr

/-- Witness for c8_text_to_sign: a padded valid text is stripped and
rendered. -/
theorem c8_text_to_sign_witness :
    text_to_sign (fun _ => true) [imgA] [('a', 0)] "f.mp4" (some " a ")
      = HttpResp.ok "f.mp4" (pyStrip ((some " a ").getD "")) :=
  (c8_text_to_sign (fun _ => true) [imgA] [('a', 0)] "f.mp4" (some " a ")).2.2 vidA rfl

/-- C10: a whitespace character other than the space itself is preserved
by normalization (it keeps the normalized text non-empty alongside valid
characters) yet contributes zero frames: the composer writes blank frames
only for the exact space character, and such a character can never be a
key of the loaded table. -/
theorem c10_whitespace (readImg : Char → Option Img) (c : Char) (text : String)
    (hsp : pyIsSpace c = true) (hc : c ≠ ' ') :
    (c ∈ text.toList → c ∈ clean_chars text)
  ∧ frame_contribution (load_sign_images readImg).1 c = 0
  ∧ frame_contribution (load_sign_images readImg).1 ' ' = space_frames := by
  have key : ∀ c0 : Char, Char.toLower c0 = c0 → keepChar c0 = true →
      c0 ∉ alphabet_chars → c0 ≠ ' ' →
      (c0 ∈ text.toList → c0 ∈ clean_chars text)
      ∧ frame_contribution (load_sign_images readImg).1 c0 = 0
      ∧ frame_contribution (load_sign_images readImg).1 ' ' = space_frames := by
    intro c0 hlow hkeep hnal hns
    refine ⟨fun hm => mem_clean_chars hm hlow hkeep, ?_, rfl⟩
    unfold frame_contribution
    rw [if_neg hns]
    cases hl : lookupSign (load_sign_images readImg).1 c0 with
    | none => rfl
    | some idx =>
      obtain ⟨p, hp, hpc, _⟩ := lookupSign_some hl
      exact absurd (hpc ▸ (load_good readImg p hp).1) hnal
  have hcases : c = ' ' ∨ c = '\t' ∨ c = '\n' ∨ c = '\x0b' ∨ c = '\x0c'
      ∨ c = '\x0d' ∨ c = '\x1c' ∨ c = '\x1d' ∨ c = '\x1e' ∨ c = '\x1f' := by
    have h0 := hsp
    unfold pyIsSpace at h0
    simp only [Bool.or_eq_true, beq_iff_eq] at h0
    tauto
  rcases hcases with rfl | rfl | rfl | rfl | rfl | rfl | rfl | rfl | rfl | rfl
  · exact absurd rfl hc
  all_goals exact key _ (by decide) (by decide) (by decide) hc

/-- Witness for c10_whitespace at a tab character. -/
theorem c10_whitespace_witness :
    (Char.ofNat 9 ∈ "a\tb".toList → Char.ofNat 9 ∈ clean_chars "a\tb")
  ∧ frame_contribution (load_sign_images readImgW).1 (Char.ofNat 9) = 0
  ∧ frame_contribution (load_sign_images readImgW).1 ' ' = space_frames :=
  c10_whitespace readImgW (Char.ofNat 9) "a\tb" (by decide) (by decide)
